import Mathlib

/-!
Verification of the benchmark-record parsing, aggregation and comparison
engine of the JazzyIndex repository (scripts/compare_parallel_results.py and
scripts/plot_benchmarks.py), shallowly embedded in Lean 4.

Python floats are modelled as exact rationals (the claims under study are
about which field is read, which records are kept, and the algebraic form of
the degradation formula, none of which hinge on rounding).  Python `dict`s
are modelled as association lists with Python's insertion semantics
(updating an existing key in place, appending a new one), and Python string
primitives (`split`, `startswith`, `in`, `replace`, `int(...)`) are embedded
as executable functions on `List Char` below.
-/

/-- Embeds Python `s.split(sep)` (single-character separator, which is the
only form the scripts use): splitting the empty string yields `[[]]`, and
consecutive separators yield empty chunks, exactly as in Python. -/
def splitCh (sep : Char) : List Char → List (List Char)
  | [] => [[]]
  | c :: rest =>
    if c = sep then [] :: splitCh sep rest
    else
      match splitCh sep rest with
      | [] => [[c]]
      | h :: t => (c :: h) :: t

/-- Python `name.split(sep)` on strings. -/
def pySplit (sep : Char) (s : String) : List String :=
  (splitCh sep s.data).map String.mk

/-- Python `s.startswith(pre)`. -/
def pyStartsWith (s pre : String) : Bool :=
  pre.data.isPrefixOf s.data

/-- Python substring membership on character lists: `sub in s`. -/
def pyContainsList (sub : List Char) : List Char → Bool
  | [] => sub.isEmpty
  | c :: rest => sub.isPrefixOf (c :: rest) || pyContainsList sub rest

/-- Python `sub in s` for strings. -/
def pyContains (s sub : String) : Bool :=
  pyContainsList sub.data s.data

/-- The whitespace characters stripped by Python `int(str)` before parsing
(ASCII subset; the benchmark names under study contain no exotic
whitespace). -/
def isPySpace (c : Char) : Bool :=
  c = ' ' || c = '\t' || c = '\n' || c = '\r' || c = '\x0b' || c = '\x0c'

/-- Strip leading and trailing whitespace from a character list, as Python
`int(...)` does to its argument. -/
def pyStripChars (l : List Char) : List Char :=
  ((l.dropWhile isPySpace).reverse.dropWhile isPySpace).reverse

/-- Digit-run scanner for Python integer literals: a run of decimal digits in
which a single underscore may stand between two digits (`int("1_0") = 10`,
while `int("1__0")`, `int("_1")`, `int("1_")` all fail). -/
def pyDigitsGo : List Char → Nat → Option Nat
  | [], acc => some acc
  | '_' :: c :: rest, acc =>
    if c.isDigit then pyDigitsGo rest (acc * 10 + (c.toNat - 48)) else none
  | c :: rest, acc =>
    if c.isDigit then pyDigitsGo rest (acc * 10 + (c.toNat - 48)) else none

/-- The unsigned part of Python `int(str)`: a nonempty digit run (with the
underscore rule), rejecting a leading underscore. -/
def pyDigits : List Char → Option Nat
  | [] => none
  | '_' :: _ => none
  | l => pyDigitsGo l 0

/-- Embeds Python `int(str)`: optional surrounding whitespace, an optional
sign, then a digit run.  Returns `none` where Python raises `ValueError`.
Note that Python's `int` accepts a leading minus sign, so e.g.
`int("-5") = -5` succeeds. -/
def pythonInt (s : String) : Option Int :=
  match pyStripChars s.data with
  | '+' :: rest => (pyDigits rest).map Int.ofNat
  | '-' :: rest => (pyDigits rest).map fun n => -(n : Int)
  | l => (pyDigits l).map Int.ofNat

/-- Embeds `name.replace("_mean", "")` from `extract_timings`: remove every
non-overlapping occurrence of `_mean`, scanning left to right. -/
def removeMean : List Char → List Char
  | '_' :: 'm' :: 'e' :: 'a' :: 'n' :: rest => removeMean rest
  | c :: rest => c :: removeMean rest
  | [] => []

/-- `name.replace("_mean", "")` on strings. -/
def pyReplaceMean (s : String) : String :=
  String.mk (removeMean s.data)

/-- The structured key produced by `parse_benchmark_name`:
`(implementation, distribution, scenario, segments-or-none, size)`. -/
abbrev BenchmarkKey := String × String × String × Option Int × Int

/-- The exceptions `parse_benchmark_name` can raise: `ValueError` (the
`MalformedName` condition, raised explicitly or by a failing `int(...)`
conversion) and `IndexError` (from `parts[0]` when stripping a lone
`threads:` segment leaves no parts at all). -/
inductive ParseError where
  | malformed
  | indexError
deriving DecidableEq, Repr

/-- Embeds the `threads:` stripping prologue of `parse_benchmark_name`:
`if parts and parts[-1].startswith("threads:"): parts = parts[:-1]`. -/
def stripThreads (parts0 : List String) : List String :=
  match parts0.getLast? with
  | some last => if pyStartsWith last "threads:" then parts0.dropLast else parts0
  | none => parts0

/-- Embeds the grammar dispatch of `parse_benchmark_name` after the name has
been split on `/` and the optional trailing `threads:` segment stripped.
Each branch mirrors the source: literal first-segment match for the two
legacy grammars (with explicit length checks before unpacking), prefix match
for the two `BM_`-style grammars. -/
def parseParts (parts : List String) : Except ParseError BenchmarkKey :=
  match parts with
  | [] => .error .indexError
  | p0 :: _ =>
    if p0 = "JazzyIndex" then
      if parts.length ≠ 5 then .error .malformed
      else
        let distribution := parts.getD 1 ""
        let segments_part := parts.getD 2 ""
        let size_part := parts.getD 3 ""
        let scenario := parts.getD 4 ""
        if pyStartsWith segments_part "S" && pyStartsWith size_part "N" then
          match pythonInt (segments_part.drop 1), pythonInt (size_part.drop 1) with
          | some segments, some size =>
            .ok ("JazzyIndex", distribution, scenario, some segments, size)
          | _, _ => .error .malformed
        else .error .malformed
    else if p0 = "LowerBound" then
      if parts.length ≠ 4 then .error .malformed
      else
        let distribution := parts.getD 1 ""
        let size_part := parts.getD 2 ""
        let scenario := parts.getD 3 ""
        if pyStartsWith size_part "N" then
          match pythonInt (size_part.drop 1) with
          | some size => .ok ("LowerBound", distribution, scenario, none, size)
          | none => .error .malformed
        else .error .malformed
    else if pyStartsWith p0 "BM_JazzyIndex_" then
      let bp := pySplit '_' p0
      if bp.length < 5 then .error .malformed
      else
        match pythonInt (bp.getD 3 "") with
        | none => .error .malformed
        | some segments =>
          let distribution := bp.getD 4 ""
          if parts.length < 3 then .error .malformed
          else
            let scenario := parts.getD 1 ""
            match pythonInt (parts.getD 2 "") with
            | none => .error .malformed
            | some size =>
              .ok ("JazzyIndex", distribution, scenario, some segments, size)
    else if pyStartsWith p0 "BM_Std_" then
      let bp := pySplit '_' p0
      let functionName := bp.getD 2 ""
      if parts.length < 4 then .error .malformed
      else
        let distribution := parts.getD 1 ""
        let scenario := parts.getD 2 ""
        match pythonInt (parts.getD 3 "") with
        | none => .error .malformed
        | some size =>
          .ok ("Std" ++ functionName, distribution, scenario, none, size)
    else .error .malformed

instance : DecidableEq (Except ParseError BenchmarkKey) := fun a b =>
  match a, b with
  | .ok x, .ok y => if h : x = y then .isTrue (by rw [h]) else .isFalse (by simp [h])
  | .error x, .error y => if h : x = y then .isTrue (by rw [h]) else .isFalse (by simp [h])
  | .ok _, .error _ => .isFalse (by simp)
  | .error _, .ok _ => .isFalse (by simp)

/-- Embeds `parse_benchmark_name` from `scripts/plot_benchmarks.py`:
split on `/`, strip one optional trailing `threads:` segment, dispatch on
the first segment. -/
def parse_benchmark_name (name : String) : Except ParseError BenchmarkKey :=
  parseParts (stripThreads (pySplit '/' name))

/-- One raw JSON benchmark entry, as consumed by
`scripts/compare_parallel_results.py`.  A field of a Python dict that may be
absent is modelled as an `Option` (`none` = key absent); `bench['k']` on an
absent key raises `KeyError`, while `bench.get('k', d)` yields the default.
The `name` field is required by every claim under study, so it is modelled
as a plain field. -/
structure BenchRecord where
  name : String
  cpu_time : Option Rat := none
  real_time : Option Rat := none
  run_type : Option String := none
deriving DecidableEq, Repr

/-- The document shape `extract_timings` consumes:
`results.get('benchmarks', [])`. -/
structure BenchResults where
  benchmarks : List BenchRecord
deriving DecidableEq, Repr

/-- Python `d[k] = v` on a dict modelled as an association list: update the
existing entry in place, else append.  (Dicts built from `[]` by this
function never hold duplicate keys, matching Python.) -/
def dictInsert : List (String × Rat) → String → Rat → List (String × Rat)
  | [], k, v => [(k, v)]
  | p :: rest, k, v =>
    if p.1 = k then (k, v) :: rest else p :: dictInsert rest k v

/-- Python `d[k]` lookup (`d.get(k)` / `k in d`). -/
def dictLookup : List (String × Rat) → String → Option Rat
  | [], _ => none
  | p :: rest, k => if p.1 = k then some p.2 else dictLookup rest k

/-- One iteration of the loop body of `extract_timings`: the `_mean` branch
keys the suffix-stripped name, the `_median`/`_stddev`/`_cv` branch skips,
and the final branch keeps raw (non-aggregate `run_type`) records under
their own name.  `none` models an uncaught `KeyError` from
`bench['cpu_time']`. -/
def extract_step (acc : List (String × Rat)) (bench : BenchRecord) :
    Option (List (String × Rat)) :=
  if pyContains bench.name "_mean" then
    match bench.cpu_time with
    | none => none
    | some t => some (dictInsert acc (pyReplaceMean bench.name) t)
  else if pyContains bench.name "_median" || pyContains bench.name "_stddev"
      || pyContains bench.name "_cv" then
    some acc
  else if !pyContains (bench.run_type.getD "") "aggregate" then
    match bench.cpu_time with
    | none => none
    | some t => some (dictInsert acc bench.name t)
  else
    some acc

/-- The `for bench in results.get('benchmarks', [])` loop of
`extract_timings`, threading the `timings` dict. -/
def extract_go : List BenchRecord → List (String × Rat) →
    Option (List (String × Rat))
  | [], acc => some acc
  | r :: rest, acc =>
    match extract_step acc r with
    | none => none
    | some acc2 => extract_go rest acc2

/-- Embeds `extract_timings` from `scripts/compare_parallel_results.py`.
The result is the final `timings` dict, or `none` when the loop raises
(`KeyError` on a missing `cpu_time`). -/
def extract_timings (results : BenchResults) : Option (List (String × Rat)) :=
  extract_go results.benchmarks []

/-- The matching loop of `compare_timings`: walk the baseline dict in order,
skip names absent from `parallel`, and collect
`(name, degradation_pct, baseline_time, parallel_time)` tuples.  `none`
models the uncaught `ZeroDivisionError` when a matched baseline time is
zero. -/
def compare_go (parallel : List (String × Rat)) :
    List (String × Rat) → Option (List (String × Rat × Rat × Rat))
  | [] => some []
  | (name, baseline_time) :: rest =>
    match dictLookup parallel name with
    | none => compare_go parallel rest
    | some parallel_time =>
      if baseline_time = 0 then none
      else
        match compare_go parallel rest with
        | none => none
        | some tail =>
          some ((name, (parallel_time - baseline_time) / baseline_time * 100,
                 baseline_time, parallel_time) :: tail)

/-- Python `abs` on a rational, written executably. -/
def pyAbs (q : Rat) : Rat :=
  if q < 0 then -q else q

/-- Python binary `max` on rationals, written executably. -/
def pyMax (a b : Rat) : Rat :=
  if a ≤ b then b else a

theorem pyAbs_eq_abs (q : Rat) : pyAbs q = |q| := by
  unfold pyAbs
  split
  case isTrue h => exact (abs_of_neg h).symm
  case isFalse h => exact (abs_of_nonneg (not_lt.mp h)).symm

theorem pyMax_eq_max (a b : Rat) : pyMax a b = max a b := by
  unfold pyMax
  split
  case isTrue h => exact (max_eq_right h).symm
  case isFalse h => exact (max_eq_left (le_of_not_le h)).symm

/-- Embeds `compare_timings` from `scripts/compare_parallel_results.py`
(minus the printing, which does not affect the returned value).  Returns
`(max_degradation, [(name, degradation_pct)])`; the empty-difference case
returns `(0.0, [])` before any maximum is taken.  For the nonempty case the
source computes `max(abs(d[1]) for d in differences)`; since every
`abs(...)` is nonnegative, folding `max` from `0` over the list computes the
same value. -/
def compare_timings (baseline parallel : List (String × Rat)) :
    Option (Rat × List (String × Rat)) :=
  match compare_go parallel baseline with
  | none => none
  | some differences =>
    if differences.isEmpty then some (0, [])
    else
      some (differences.foldl (fun m d => pyMax m (pyAbs d.2.1)) 0,
            differences.map fun d => (d.1, d.2.1))

/-- The state of the file handed to `load_benchmark_results`, together with
the verdict of Python's `json.loads` on its content.  The `json` module is
external to the repository, so its outcome on a given non-empty content
string is carried as an oracle: either a `JSONDecodeError` or a parsed
document. -/
inductive FileState where
  | absent
  | present (content : String) (parsed : Except Unit BenchResults)

/-- The error `load_benchmark_results` lets escape: `open` on a missing file
raises `FileNotFoundError`, which the `except json.JSONDecodeError` clause
does not catch. -/
inductive LoadError where
  | fileNotFound
deriving DecidableEq, Repr

/-- Embeds `load_benchmark_results` from
`scripts/compare_parallel_results.py`: a missing file is a hard error; an
empty (after `strip()`) content or a `JSONDecodeError` yields the soft
result `{'benchmarks': []}`; otherwise the parsed document is returned. -/
def load_benchmark_results (file : FileState) :
    Except LoadError BenchResults :=
  match file with
  | .absent => .error .fileNotFound
  | .present content parsed =>
    if String.mk (pyStripChars content.data) = "" then .ok ⟨[]⟩
    else
      match parsed with
      | .error _ => .ok ⟨[]⟩
      | .ok r => .ok r

theorem compare_go_nil (parallel : List (String × Rat)) :
    compare_go parallel [] = some [] := rfl

theorem compare_go_cons_skip {parallel : List (String × Rat)} {name : String}
    (bt : Rat) (rest : List (String × Rat))
    (h : dictLookup parallel name = none) :
    compare_go parallel ((name, bt) :: rest) = compare_go parallel rest := by
  simp [compare_go, h]

theorem compare_go_cons_zero {parallel : List (String × Rat)} {name : String}
    {pt : Rat} (rest : List (String × Rat))
    (h : dictLookup parallel name = some pt) :
    compare_go parallel ((name, 0) :: rest) = none := by
  simp [compare_go, h]

theorem compare_go_cons_found {parallel : List (String × Rat)} {name : String}
    {bt pt : Rat} {rest : List (String × Rat)}
    {tail : List (String × Rat × Rat × Rat)}
    (h : dictLookup parallel name = some pt) (hbt : ¬bt = 0)
    (htail : compare_go parallel rest = some tail) :
    compare_go parallel ((name, bt) :: rest) =
      some ((name, (pt - bt) / bt * 100, bt, pt) :: tail) := by
  simp [compare_go, h, hbt, htail]

theorem compare_timings_eq {baseline parallel : List (String × Rat)}
    {diffs : List (String × Rat × Rat × Rat)}
    (h : compare_go parallel baseline = some diffs) (hne : diffs ≠ []) :
    compare_timings baseline parallel =
      some (diffs.foldl (fun m d => pyMax m (pyAbs d.2.1)) 0,
            diffs.map fun d => (d.1, d.2.1)) := by
  simp [compare_timings, h, hne]

theorem splitCh_ne_nil (sep : Char) (l : List Char) : splitCh sep l ≠ [] := by
  induction l with
  | nil => simp [splitCh]
  | cons c rest ih =>
    simp only [splitCh]
    split
    · simp
    · rcases hsp : splitCh sep rest with _ | ⟨h0, t0⟩
      · exact absurd hsp ih
      · simp [hsp]

theorem splitCh_no_sep (sep : Char) (l : List Char) (h : sep ∉ l) :
    splitCh sep l = [l] := by
  induction l with
  | nil => rfl
  | cons c rest ih =>
    have hc : ¬c = sep := by
      intro he
      exact h (he ▸ List.mem_cons_self c rest)
    have hrest : sep ∉ rest := fun hm => h (List.mem_cons_of_mem c hm)
    simp [splitCh, hc, ih hrest]

theorem splitCh_append_sep (sep : Char) (l suffix : List Char)
    (h : sep ∉ suffix) :
    splitCh sep (l ++ sep :: suffix) = splitCh sep l ++ [suffix] := by
  induction l with
  | nil => simp [splitCh, splitCh_no_sep sep suffix h]
  | cons c rest ih =>
    by_cases hc : c = sep
    · simp [splitCh, hc, ih]
    · rcases hsp : splitCh sep rest with _ | ⟨h0, t0⟩
      · exact absurd hsp (splitCh_ne_nil sep rest)
      · have h1 : splitCh sep ((c :: rest) ++ sep :: suffix) =
            match splitCh sep (rest ++ sep :: suffix) with
            | [] => [[c]]
            | h :: t => (c :: h) :: t := by
          simp [splitCh, hc]
        rw [h1, ih, hsp]
        simp [splitCh, hc, hsp]

theorem pySplit_data_concat {s name tail : String}
    (hdata : s.data = name.data ++ '/' :: tail.data) (h : '/' ∉ tail.data) :
    pySplit '/' s = pySplit '/' name ++ [tail] := by
  obtain ⟨td⟩ := tail
  simp only [pySplit, hdata, splitCh_append_sep '/' name.data td h,
    List.map_append, List.map_cons, List.map_nil]

theorem stripThreads_of_last {parts0 : List String} {last : String}
    (h : parts0.getLast? = some last)
    (hth : pyStartsWith last "threads:" = false) :
    stripThreads parts0 = parts0 := by
  simp [stripThreads, h, hth]

theorem stripThreads_concat {parts0 : List String} {tail : String}
    (hth : pyStartsWith tail "threads:" = true) :
    stripThreads (parts0 ++ [tail]) = parts0 := by
  simp [stripThreads, List.getLast?_concat, hth]

theorem parseParts_jazzy_ok (dist sp np scen : String) (s n : Int)
    (hS : pyStartsWith sp "S" = true) (hN : pyStartsWith np "N" = true)
    (hs : pythonInt (sp.drop 1) = some s) (hn : pythonInt (np.drop 1) = some n) :
    parseParts ["JazzyIndex", dist, sp, np, scen] =
      .ok ("JazzyIndex", dist, scen, some s, n) := by
  simp [parseParts, List.getD, hS, hN, hs, hn]

theorem parseParts_jazzy_len (l : List String) (hlen : l.length ≠ 4) :
    parseParts ("JazzyIndex" :: l) = .error .malformed := by
  simp only [parseParts]
  simp
  intro hc
  exact absurd hc hlen

theorem parseParts_jazzy_badpre (dist sp np scen : String)
    (hbad : pyStartsWith sp "S" = false ∨ pyStartsWith np "N" = false) :
    parseParts ["JazzyIndex", dist, sp, np, scen] = .error .malformed := by
  rcases hbad with hb | hb <;> simp [parseParts, List.getD, hb]

theorem parseParts_lower_ok (dist np scen : String) (n : Int)
    (hN : pyStartsWith np "N" = true) (hn : pythonInt (np.drop 1) = some n) :
    parseParts ["LowerBound", dist, np, scen] =
      .ok ("LowerBound", dist, scen, none, n) := by
  simp [parseParts, List.getD, hN, hn]

theorem getLast?_five (a b c d e : String) :
    ([a, b, c, d, e] : List String).getLast? = some e := rfl

theorem getLast?_four (a b c d : String) :
    ([a, b, c, d] : List String).getLast? = some d := rfl

theorem getLast?_three (a b c : String) :
    ([a, b, c] : List String).getLast? = some c := rfl

/-- Claim C4: every valid legacy-format name
`JazzyIndex/Dist/S<s>/N<n>/Scenario` (exactly 5 slash-separated segments,
mandatory `S` and `N` prefixes, numeric suffixes, scenario not itself a
`threads:` segment) parses to exactly `("JazzyIndex", Dist, Scenario, s, n)`;
a wrong segment count or a missing prefix is a `MalformedName` (`ValueError`)
failure; and the 4-segment legacy baseline form
`LowerBound/Dist/N<n>/Scenario` parses with `segments = none`. -/
theorem legacy_grammar_parse :
    (∀ (name dist sp np scen : String) (s n : Int),
      pySplit '/' name = ["JazzyIndex", dist, sp, np, scen] →
      pyStartsWith scen "threads:" = false →
      pyStartsWith sp "S" = true → pyStartsWith np "N" = true →
      pythonInt (sp.drop 1) = some s → pythonInt (np.drop 1) = some n →
      parse_benchmark_name name = .ok ("JazzyIndex", dist, scen, some s, n))
    ∧ (∀ (name : String) (l : List String),
      stripThreads (pySplit '/' name) = "JazzyIndex" :: l → l.length ≠ 4 →
      parse_benchmark_name name = .error .malformed)
    ∧ (∀ (name dist sp np scen : String),
      pySplit '/' name = ["JazzyIndex", dist, sp, np, scen] →
      pyStartsWith scen "threads:" = false →
      (pyStartsWith sp "S" = false ∨ pyStartsWith np "N" = false) →
      parse_benchmark_name name = .error .malformed)
    ∧ (∀ (name dist np scen : String) (n : Int),
      pySplit '/' name = ["LowerBound", dist, np, scen] →
      pyStartsWith scen "threads:" = false →
      pyStartsWith np "N" = true → pythonInt (np.drop 1) = some n →
      parse_benchmark_name name = .ok ("LowerBound", dist, scen, none, n)) := by
  refine ⟨?_, ?_, ?_, ?_⟩
  · intro name dist sp np scen s n hsplit hth hS hN hs hn
    unfold parse_benchmark_name
    rw [hsplit, stripThreads_of_last (getLast?_five _ _ _ _ _) hth]
    exact parseParts_jazzy_ok dist sp np scen s n hS hN hs hn
  · intro name l hstrip hlen
    unfold parse_benchmark_name
    rw [hstrip]
    exact parseParts_jazzy_len l hlen
  · intro name dist sp np scen hsplit hth hbad
    unfold parse_benchmark_name
    rw [hsplit, stripThreads_of_last (getLast?_five _ _ _ _ _) hth]
    exact parseParts_jazzy_badpre dist sp np scen hbad
  · intro name dist np scen n hsplit hth hN hn
    unfold parse_benchmark_name
    rw [hsplit, stripThreads_of_last (getLast?_four _ _ _ _) hth]
    exact parseParts_lower_ok dist np scen n hN hn

/-- Witness for C4: the four conjuncts of `legacy_grammar_parse`
instantiated at concrete names. -/
theorem legacy_grammar_parse_witness :
    parse_benchmark_name "JazzyIndex/Uniform/S8/N100/Found" =
      .ok ("JazzyIndex", "Uniform", "Found", some 8, 100)
    ∧ parse_benchmark_name "JazzyIndex/Uniform/S8/N100" = .error .malformed
    ∧ parse_benchmark_name "JazzyIndex/Uniform/X8/N100/Found" = .error .malformed
    ∧ parse_benchmark_name "LowerBound/Uniform/N100/Found" =
      .ok ("LowerBound", "Uniform", "Found", none, 100) := by
  refine ⟨?_, ?_, ?_, ?_⟩
  · exact legacy_grammar_parse.1 _ "Uniform" "S8" "N100" "Found" 8 100
      (by decide) (by decide) (by decide) (by decide) (by decide) (by decide)
  · exact legacy_grammar_parse.2.1 _ ["Uniform", "S8", "N100"]
      (by decide) (by decide)
  · exact legacy_grammar_parse.2.2.1 _ "Uniform" "X8" "N100" "Found"
      (by decide) (by decide) (Or.inl (by decide))
  · exact legacy_grammar_parse.2.2.2 _ "Uniform" "N100" "Found" 100
      (by decide) (by decide) (by decide) (by decide)

/-- Claim C8 (amended): for a 5-segment legacy `JazzyIndex` name with the
mandatory `S`/`N` prefixes, parsing succeeds iff the text after each prefix
parses as a Python integer literal — which, `int` being sign-accepting,
includes negative suffixes such as `S-1`; a non-numeric suffix is a
`MalformedName` failure, but a negative suffix is accepted, not rejected. -/
theorem numeric_suffix_parse :
    ∀ (name dist sp np scen : String),
      pySplit '/' name = ["JazzyIndex", dist, sp, np, scen] →
      pyStartsWith scen "threads:" = false →
      pyStartsWith sp "S" = true → pyStartsWith np "N" = true →
      ((∃ k, parse_benchmark_name name = .ok k) ↔
        (pythonInt (sp.drop 1)).isSome ∧ (pythonInt (np.drop 1)).isSome) := by
  intro name dist sp np scen hsplit hth hS hN
  unfold parse_benchmark_name
  rw [hsplit, stripThreads_of_last (getLast?_five _ _ _ _ _) hth]
  cases hs : pythonInt (sp.drop 1) <;> cases hn : pythonInt (np.drop 1) <;>
    simp [parseParts, List.getD, hS, hN, hs, hn]

/-- Counterexample for C8 as frozen: the legacy parser accepts the negative
segment suffix `S-1` (Python `int("-1")` succeeds), instead of rejecting
numbers that are not non-negative. -/
theorem numeric_suffix_negative_accepted :
    parse_benchmark_name "JazzyIndex/Uniform/S-1/N100/Found" =
      .ok ("JazzyIndex", "Uniform", "Found", some (-1), 100) := by decide

/-- Witness for C8: `numeric_suffix_parse` instantiated at a concrete
well-formed name. -/
theorem numeric_suffix_parse_witness :
    ∃ k, parse_benchmark_name "JazzyIndex/Normal/S16/N1000/NotFound" = .ok k :=
  (numeric_suffix_parse _ "Normal" "S16" "N1000" "NotFound" (by decide)
    (by decide) (by decide) (by decide)).mpr ⟨by decide, by decide⟩

/-- Claim C5 (amended): every valid new-format name
`BM_JazzyIndex_<Func>_<s>_<Dist>/Scenario/<n>` parses to the key
`("JazzyIndex", Dist, Scenario, s, n)`.  The function component is read by
the source but dropped from the returned key, so it is not recoverable from
the parse result. -/
theorem new_grammar_parse :
    ∀ (name p0 scen sizeStr func segStr dist : String) (s n : Int),
      pySplit '/' name = [p0, scen, sizeStr] →
      pyStartsWith p0 "BM_JazzyIndex_" = true →
      pySplit '_' p0 = ["BM", "JazzyIndex", func, segStr, dist] →
      pythonInt segStr = some s → pythonInt sizeStr = some n →
      pyStartsWith sizeStr "threads:" = false →
      parse_benchmark_name name = .ok ("JazzyIndex", dist, scen, some s, n) := by
  intro name p0 scen sizeStr func segStr dist s n hsplit hBM hU hseg hsize hth
  have hne1 : ¬p0 = "JazzyIndex" := by
    intro h
    rw [h] at hU
    have hlen := congrArg List.length hU
    rw [show (pySplit '_' "JazzyIndex").length = 1 from by decide] at hlen
    simp at hlen
  have hne2 : ¬p0 = "LowerBound" := by
    intro h
    rw [h] at hU
    have hlen := congrArg List.length hU
    rw [show (pySplit '_' "LowerBound").length = 1 from by decide] at hlen
    simp at hlen
  unfold parse_benchmark_name
  rw [hsplit, stripThreads_of_last (getLast?_three _ _ _) hth]
  simp [parseParts, List.getD, hne1, hne2, hBM, hU, hseg, hsize]

/-- Counterexample for C5 as frozen: two valid new-format names that differ
only in their function component parse to the same key, so the function
identity is not recoverable from the parse result. -/
theorem new_grammar_function_discarded :
    parse_benchmark_name "BM_JazzyIndex_EqualRange_64_Uniform/Found/100" =
      .ok ("JazzyIndex", "Uniform", "Found", some 64, 100)
    ∧ parse_benchmark_name "BM_JazzyIndex_UpperBound_64_Uniform/Found/100" =
      .ok ("JazzyIndex", "Uniform", "Found", some 64, 100)
    ∧ ("BM_JazzyIndex_EqualRange_64_Uniform/Found/100" : String) ≠
      "BM_JazzyIndex_UpperBound_64_Uniform/Found/100" :=
  ⟨by decide, by decide, by decide⟩

/-- Witness for C5: `new_grammar_parse` instantiated at a concrete name. -/
theorem new_grammar_parse_witness :
    parse_benchmark_name "BM_JazzyIndex_LowerBound_256_Clustered/FoundMiddle/1000" =
      .ok ("JazzyIndex", "Clustered", "FoundMiddle", some 256, 1000) :=
  new_grammar_parse _ "BM_JazzyIndex_LowerBound_256_Clustered" "FoundMiddle"
    "1000" "LowerBound" "256" "Clustered" 256 1000 (by decide) (by decide)
    (by decide) (by decide) (by decide) (by decide)

/-- Claim C9 (amended): appending a trailing `/threads:N` segment to a name
that parses successfully preserves the parsed key, provided the name's own
last slash-segment does not already start with `threads:` (the parser strips
only one trailing `threads:` segment, so stacking a second one changes the
outcome). -/
theorem threads_suffix_parse :
    ∀ (name : String) (key : BenchmarkKey) (last nstr : String),
      parse_benchmark_name name = .ok key →
      (pySplit '/' name).getLast? = some last →
      pyStartsWith last "threads:" = false →
      '/' ∉ nstr.data →
      parse_benchmark_name (name ++ "/threads:" ++ nstr) = .ok key := by
  intro name key last nstr hok hlast hth hslash
  have htail : '/' ∉ (("threads:" ++ nstr) : String).data := by
    rw [String.data_append]
    intro hm
    rcases List.mem_append.mp hm with h1 | h2
    · exact absurd h1 (by decide)
    · exact hslash h2
  have hdata : (name ++ "/threads:" ++ nstr).data
      = name.data ++ '/' :: (("threads:" ++ nstr) : String).data := by
    simp [String.data_append]
  have hstart : pyStartsWith ("threads:" ++ nstr) "threads:" = true := by
    simp [pyStartsWith, String.data_append]
  have h0 := hok
  unfold parse_benchmark_name at h0
  rw [stripThreads_of_last hlast hth] at h0
  unfold parse_benchmark_name
  rw [pySplit_data_concat hdata htail, stripThreads_concat hstart]
  exact h0

/-- Counterexample for C9 as frozen: a name that already carries a
`threads:` segment parses successfully, but appending a second `/threads:N`
makes parsing fail (only one trailing `threads:` segment is stripped, so the
`JazzyIndex` grammar then sees six segments). -/
theorem threads_suffix_double :
    parse_benchmark_name "JazzyIndex/Uniform/S1/N10/Found/threads:2" =
      .ok ("JazzyIndex", "Uniform", "Found", some 1, 10)
    ∧ parse_benchmark_name
        ("JazzyIndex/Uniform/S1/N10/Found/threads:2" ++ "/threads:" ++ "3") =
      .error .malformed :=
  ⟨by decide, by decide⟩

/-- Witness for C9: `threads_suffix_parse` instantiated at a concrete
name. -/
theorem threads_suffix_parse_witness :
    parse_benchmark_name ("JazzyIndex/Exponential/S4/N50/Found" ++ "/threads:" ++ "4") =
      .ok ("JazzyIndex", "Exponential", "Found", some 4, 50) :=
  threads_suffix_parse "JazzyIndex/Exponential/S4/N50/Found" _ "Found" "4"
    (by decide) (by decide) (by decide) (by decide)

theorem compare_timings_cases {baseline parallel : List (String × Rat)}
    {res : Rat × List (String × Rat)}
    (h : compare_timings baseline parallel = some res) :
    ∃ diffs, compare_go parallel baseline = some diffs ∧
      ((diffs = [] ∧ res = (0, [])) ∨
       (diffs ≠ [] ∧
        res = (diffs.foldl (fun m d => pyMax m (pyAbs d.2.1)) 0,
               diffs.map fun d => (d.1, d.2.1)))) := by
  unfold compare_timings at h
  cases hgo : compare_go parallel baseline with
  | none => rw [hgo] at h; exact absurd h (by simp)
  | some diffs =>
    rw [hgo] at h
    have h2 : (if diffs.isEmpty = true then
          some ((0 : Rat), ([] : List (String × Rat)))
        else
          some (diffs.foldl (fun m d => pyMax m (pyAbs d.2.1)) 0,
                diffs.map fun d => (d.1, d.2.1))) = some res := h
    refine ⟨diffs, rfl, ?_⟩
    by_cases hemp : diffs.isEmpty = true
    · rw [if_pos hemp] at h2
      exact Or.inl ⟨List.isEmpty_iff.mp hemp, (Option.some.inj h2).symm⟩
    · rw [if_neg hemp] at h2
      refine Or.inr ⟨fun he => hemp ?_, (Option.some.inj h2).symm⟩
      rw [he]
      rfl

theorem compare_go_mem_found {parallel : List (String × Rat)} :
    ∀ {baseline : List (String × Rat)} {diffs : List (String × Rat × Rat × Rat)},
      compare_go parallel baseline = some diffs →
      ∀ d ∈ diffs, (dictLookup parallel d.1).isSome := by
  intro baseline
  induction baseline with
  | nil =>
    intro diffs h d hd
    rw [compare_go_nil] at h
    cases Option.some.inj h
    cases hd
  | cons p rest ih =>
    obtain ⟨name, bt⟩ := p
    intro diffs h d hd
    cases hl : dictLookup parallel name with
    | none =>
      rw [compare_go_cons_skip bt rest hl] at h
      exact ih h d hd
    | some pt =>
      by_cases hbt : bt = 0
      · subst hbt
        rw [compare_go_cons_zero rest hl] at h
        cases h
      · cases htail : compare_go parallel rest with
        | none => simp [compare_go, hl, hbt, htail] at h
        | some tail =>
          rw [compare_go_cons_found hl hbt htail] at h
          cases Option.some.inj h
          rcases List.mem_cons.mp hd with rfl | hmem
          · simp [hl]
          · exact ih htail d hmem

theorem compare_go_mem_formula {parallel : List (String × Rat)} :
    ∀ {baseline : List (String × Rat)} {diffs : List (String × Rat × Rat × Rat)}
      {name : String} {bt pt : Rat},
      compare_go parallel baseline = some diffs →
      (name, bt) ∈ baseline → dictLookup parallel name = some pt →
      (name, (pt - bt) / bt * 100, bt, pt) ∈ diffs := by
  intro baseline
  induction baseline with
  | nil =>
    intro diffs name bt pt _ hmem
    cases hmem
  | cons p rest ih =>
    obtain ⟨name2, bt2⟩ := p
    intro diffs name bt pt h hmem hlook
    rcases List.mem_cons.mp hmem with heq | hmem2
    · injection heq with h1 h2
      subst h1
      subst h2
      by_cases hbt : bt = 0
      · subst hbt
        rw [compare_go_cons_zero rest hlook] at h
        cases h
      · cases htail : compare_go parallel rest with
        | none => simp [compare_go, hlook, hbt, htail] at h
        | some tail =>
          rw [compare_go_cons_found hlook hbt htail] at h
          cases Option.some.inj h
          exact List.mem_cons_self _ _
    · cases hl : dictLookup parallel name2 with
      | none =>
        rw [compare_go_cons_skip bt2 rest hl] at h
        exact ih h hmem2 hlook
      | some pt2 =>
        by_cases hbt2 : bt2 = 0
        · subst hbt2
          rw [compare_go_cons_zero rest hl] at h
          cases h
        · cases htail : compare_go parallel rest with
          | none => simp [compare_go, hl, hbt2, htail] at h
          | some tail =>
            rw [compare_go_cons_found hl hbt2 htail] at h
            cases Option.some.inj h
            exact List.mem_cons_of_mem _ (ih htail hmem2 hlook)

theorem compare_go_all_skip {parallel : List (String × Rat)} :
    ∀ {baseline : List (String × Rat)},
      (∀ e ∈ baseline, dictLookup parallel e.1 = none) →
      compare_go parallel baseline = some [] := by
  intro baseline
  induction baseline with
  | nil => intro _; rfl
  | cons p rest ih =>
    obtain ⟨name, bt⟩ := p
    intro hall
    rw [compare_go_cons_skip bt rest (hall (name, bt) (List.mem_cons_self _ _))]
    exact ih fun e he => hall e (List.mem_cons_of_mem _ he)

theorem compare_go_none_of_zero {parallel : List (String × Rat)} {name : String} :
    ∀ {baseline : List (String × Rat)},
      (name, (0 : Rat)) ∈ baseline → (dictLookup parallel name).isSome →
      compare_go parallel baseline = none := by
  intro baseline
  induction baseline with
  | nil => intro hmem; cases hmem
  | cons p rest ih =>
    obtain ⟨name2, bt2⟩ := p
    intro hmem hsome
    rcases List.mem_cons.mp hmem with heq | hmem2
    · cases heq
      obtain ⟨pt, hl⟩ := Option.isSome_iff_exists.mp hsome
      exact compare_go_cons_zero rest hl
    · cases hl : dictLookup parallel name2 with
      | none =>
        rw [compare_go_cons_skip bt2 rest hl]
        exact ih hmem2 hsome
      | some pt2 =>
        by_cases hbt2 : bt2 = 0
        · subst hbt2
          exact compare_go_cons_zero rest hl
        · simp [compare_go, hl, hbt2, ih hmem2 hsome]

theorem compare_go_isSome {parallel : List (String × Rat)} :
    ∀ {baseline : List (String × Rat)},
      (∀ p ∈ baseline, (dictLookup parallel p.1).isSome → p.2 ≠ 0) →
      (compare_go parallel baseline).isSome := by
  intro baseline
  induction baseline with
  | nil => intro _; rfl
  | cons p rest ih =>
    obtain ⟨name, bt⟩ := p
    intro hall
    cases hl : dictLookup parallel name with
    | none =>
      rw [compare_go_cons_skip bt rest hl]
      exact ih fun e he hs => hall e (List.mem_cons_of_mem _ he) hs
    | some pt =>
      have hbt : bt ≠ 0 :=
        hall (name, bt) (List.mem_cons_self _ _) (by simp [hl])
      have htail := ih fun e he hs => hall e (List.mem_cons_of_mem _ he) hs
      obtain ⟨tail, htl⟩ := Option.isSome_iff_exists.mp htail
      rw [compare_go_cons_found hl hbt htl]
      rfl

theorem foldl_deg_init_le :
    ∀ (l : List (String × Rat × Rat × Rat)) (a : Rat),
      a ≤ l.foldl (fun m d => pyMax m (pyAbs d.2.1)) a := by
  intro l
  induction l with
  | nil => intro a; exact le_refl a
  | cons c rest ih =>
    intro a
    calc a ≤ pyMax a (pyAbs c.2.1) := by
          rw [pyMax_eq_max]; exact le_max_left _ _
    _ ≤ rest.foldl (fun m d => pyMax m (pyAbs d.2.1)) (pyMax a (pyAbs c.2.1)) :=
        ih _

theorem foldl_deg_mem_le :
    ∀ (l : List (String × Rat × Rat × Rat)) (a : Rat)
      (x : String × Rat × Rat × Rat), x ∈ l →
      pyAbs x.2.1 ≤ l.foldl (fun m d => pyMax m (pyAbs d.2.1)) a := by
  intro l
  induction l with
  | nil => intro a x hx; cases hx
  | cons c rest ih =>
    intro a x hx
    rcases List.mem_cons.mp hx with rfl | hmem
    · calc pyAbs x.2.1 ≤ pyMax a (pyAbs x.2.1) := by
            rw [pyMax_eq_max]; exact le_max_right _ _
      _ ≤ rest.foldl (fun m d => pyMax m (pyAbs d.2.1)) (pyMax a (pyAbs x.2.1)) :=
          foldl_deg_init_le rest _
    · exact ih _ x hmem

theorem foldl_deg_attained :
    ∀ (l : List (String × Rat × Rat × Rat)) (a : Rat),
      l.foldl (fun m d => pyMax m (pyAbs d.2.1)) a = a ∨
      ∃ x ∈ l, l.foldl (fun m d => pyMax m (pyAbs d.2.1)) a = pyAbs x.2.1 := by
  intro l
  induction l with
  | nil => intro a; exact Or.inl rfl
  | cons c rest ih =>
    intro a
    rcases ih (pyMax a (pyAbs c.2.1)) with heq | ⟨x, hx, heq⟩
    · rw [List.foldl_cons, heq, pyMax_eq_max]
      rcases max_choice a (pyAbs c.2.1) with hm | hm
      · exact Or.inl hm
      · exact Or.inr ⟨c, List.mem_cons_self _ _, hm⟩
    · exact Or.inr ⟨x, List.mem_cons_of_mem _ hx, by rw [List.foldl_cons, heq]⟩

/-- Claim C1: in `compare_timings`, a baseline name absent from the
treatment mapping contributes no entry to the result (every reported entry's
name is present in the treatment mapping), and every name present in both
mappings is reported with
`degradation_pct = (treatment_time - baseline_time) / baseline_time * 100`. -/
theorem compare_skip_and_formula :
    (∀ (baseline parallel : List (String × Rat)) (res : Rat × List (String × Rat)),
      compare_timings baseline parallel = some res →
      ∀ d ∈ res.2, (dictLookup parallel d.1).isSome)
    ∧ (∀ (baseline parallel : List (String × Rat)) (res : Rat × List (String × Rat))
        (name : String) (bt pt : Rat),
      compare_timings baseline parallel = some res →
      (name, bt) ∈ baseline → dictLookup parallel name = some pt →
      (name, (pt - bt) / bt * 100) ∈ res.2) := by
  constructor
  · intro baseline parallel res h d hd
    obtain ⟨diffs, hgo, hcase⟩ := compare_timings_cases h
    rcases hcase with ⟨_, rfl⟩ | ⟨_, rfl⟩
    · cases hd
    · obtain ⟨d0, hd0, rfl⟩ := List.mem_map.mp hd
      exact compare_go_mem_found hgo d0 hd0
  · intro baseline parallel res name bt pt h hmem hlook
    obtain ⟨diffs, hgo, hcase⟩ := compare_timings_cases h
    have htup := compare_go_mem_formula hgo hmem hlook
    rcases hcase with ⟨rfl, rfl⟩ | ⟨_, rfl⟩
    · cases htup
    · exact List.mem_map.mpr ⟨(name, (pt - bt) / bt * 100, bt, pt), htup, rfl⟩

/-- Witness for C1: `compare_skip_and_formula` at the worked example from
the specification, `compare({"A": 100.0, "B": 50.0}, {"A": 90.0})`. -/
theorem compare_skip_and_formula_witness :
    (∀ d ∈ [(("A" : String), (-10 : Rat))], (dictLookup [("A", 90)] d.1).isSome)
    ∧ ("A", ((90 : Rat) - 100) / 100 * 100) ∈ [(("A" : String), (-10 : Rat))] := by
  have h1 : dictLookup [("A", (90 : Rat))] "A" = some 90 := rfl
  have h2 : dictLookup [("A", (90 : Rat))] "B" = none := rfl
  have heval : compare_timings [("A", 100), ("B", 50)] [("A", 90)] =
      some (10, [("A", -10)]) := by
    have g1 : compare_go [("A", 90)] [("A", 100), ("B", 50)] =
        some [("A", ((90:Rat) - 100) / 100 * 100, 100, 90)] :=
      compare_go_cons_found h1 (by norm_num)
        ((compare_go_cons_skip 50 [] h2).trans (compare_go_nil _))
    rw [compare_timings_eq g1 (by simp)]
    norm_num [pyMax, pyAbs]
  exact ⟨fun d hd => compare_skip_and_formula.1 _ _ _ heval d hd,
    compare_skip_and_formula.2 [("A", 100), ("B", 50)] [("A", 90)]
      (10, [("A", -10)]) "A" 100 90 heval (by decide) h1⟩

/-- Claim C6: the maximum degradation reported by `compare_timings` is the
maximum over all matched entries of the absolute value of the degradation
percentage (every reported entry is bounded by it and it is attained), and
when no baseline name appears in the treatment mapping the result is
`(0.0, [])` with no error. -/
theorem compare_max_and_empty :
    (∀ (baseline parallel : List (String × Rat)) (m : Rat)
        (det : List (String × Rat)),
      compare_timings baseline parallel = some (m, det) → det ≠ [] →
      (∀ d ∈ det, |d.2| ≤ m) ∧ ∃ d ∈ det, |d.2| = m)
    ∧ (∀ (baseline parallel : List (String × Rat)),
      (∀ e ∈ baseline, dictLookup parallel e.1 = none) →
      compare_timings baseline parallel = some (0, [])) := by
  constructor
  · intro baseline parallel m det h hne
    obtain ⟨diffs, hgo, hcase⟩ := compare_timings_cases h
    rcases hcase with ⟨_, hres⟩ | ⟨hdne, hres⟩
    · exact absurd (congrArg Prod.snd hres) hne
    · have hm : m = diffs.foldl (fun a d => pyMax a (pyAbs d.2.1)) 0 :=
        congrArg Prod.fst hres
      have hdet : det = diffs.map fun d => (d.1, d.2.1) :=
        congrArg Prod.snd hres
      constructor
      · intro d hd
        rw [hdet] at hd
        obtain ⟨d0, hd0, rfl⟩ := List.mem_map.mp hd
        have hle := foldl_deg_mem_le diffs 0 d0 hd0
        rw [pyAbs_eq_abs] at hle
        rw [hm]
        exact hle
      · rcases foldl_deg_attained diffs 0 with hz | hat
        · obtain ⟨d0, rest, rfl⟩ := List.exists_cons_of_ne_nil hdne
          have hmem : (d0.1, d0.2.1) ∈ det := by
            rw [hdet]
            exact List.mem_map_of_mem _ (List.mem_cons_self _ _)
          have hle := foldl_deg_mem_le (d0 :: rest) 0 d0 (List.mem_cons_self _ _)
          rw [hz, pyAbs_eq_abs] at hle
          have h0 : |d0.2.1| = 0 := le_antisymm hle (abs_nonneg _)
          refine ⟨(d0.1, d0.2.1), hmem, ?_⟩
          rw [hm, hz]
          exact h0
        · obtain ⟨d0, hd0, heq⟩ := hat
          have hmem : (d0.1, d0.2.1) ∈ det := by
            rw [hdet]
            exact List.mem_map_of_mem _ hd0
          refine ⟨(d0.1, d0.2.1), hmem, ?_⟩
          rw [hm, heq, pyAbs_eq_abs]
  · intro baseline parallel hall
    unfold compare_timings
    rw [compare_go_all_skip hall]
    rfl

/-- Witness for C6: `compare_max_and_empty` at the specification's
`compare({"A": 100.0}, {"A": 110.0})` example and at a disjoint pair of
mappings. -/
theorem compare_max_and_empty_witness :
    ((∀ d ∈ [(("A" : String), (10 : Rat))], |d.2| ≤ 10)
      ∧ ∃ d ∈ [(("A" : String), (10 : Rat))], |d.2| = 10)
    ∧ compare_timings [("C", 1)] [("D", 2)] = some (0, []) := by
  have h1 : dictLookup [("A", (110 : Rat))] "A" = some 110 := rfl
  have heval : compare_timings [("A", 100)] [("A", 110)] =
      some (10, [("A", 10)]) := by
    have g1 : compare_go [("A", 110)] [("A", 100)] =
        some [("A", ((110:Rat) - 100) / 100 * 100, 100, 110)] :=
      compare_go_cons_found h1 (by norm_num) (compare_go_nil _)
    rw [compare_timings_eq g1 (by simp)]
    norm_num [pyMax, pyAbs]
  exact ⟨compare_max_and_empty.1 [("A", 100)] [("A", 110)] 10 [("A", 10)]
      heval (by simp),
    compare_max_and_empty.2 [("C", 1)] [("D", 2)] (by decide)⟩

/-- Claim C10: `compare_timings` divides by the baseline time with no guard:
whenever some matched name has baseline time `0.0` the comparison fails with
a `ZeroDivisionError` (modelled as `none`), and it is total exactly under
the precondition that every matched baseline time is nonzero. -/
theorem compare_zero_division :
    (∀ (baseline parallel : List (String × Rat)) (name : String),
      (name, (0 : Rat)) ∈ baseline → (dictLookup parallel name).isSome →
      compare_timings baseline parallel = none)
    ∧ (∀ (baseline parallel : List (String × Rat)),
      (∀ p ∈ baseline, (dictLookup parallel p.1).isSome → p.2 ≠ 0) →
      (compare_timings baseline parallel).isSome) := by
  constructor
  · intro baseline parallel name hmem hsome
    unfold compare_timings
    rw [compare_go_none_of_zero hmem hsome]
  · intro baseline parallel hall
    obtain ⟨diffs, hgo⟩ := Option.isSome_iff_exists.mp (compare_go_isSome hall)
    unfold compare_timings
    rw [hgo]
    show (if diffs.isEmpty = true then
        some ((0 : Rat), ([] : List (String × Rat)))
      else
        some (diffs.foldl (fun m d => pyMax m (pyAbs d.2.1)) 0,
              diffs.map fun d => (d.1, d.2.1))).isSome = true
    by_cases hemp : diffs.isEmpty = true
    · rw [if_pos hemp]; rfl
    · rw [if_neg hemp]; rfl

/-- Witness for C10: `compare_zero_division` at a mapping with a matched
zero baseline time and at one where all matched baseline times are
nonzero. -/
theorem compare_zero_division_witness :
    compare_timings [("A", 0)] [("A", 5)] = none
    ∧ (compare_timings [("A", 100)] [("A", 90)]).isSome :=
  ⟨compare_zero_division.1 [("A", 0)] [("A", 5)] "A" (by decide) (by decide),
   compare_zero_division.2 [("A", 100)] [("A", 90)] (by decide)⟩

/-- Claim C3: `load_benchmark_results` returns the empty record list without
raising when the file exists but its content is empty (after `strip()`) or
fails to parse as JSON; a missing file is a hard `FileNotFoundError`
(uncaught by the `except json.JSONDecodeError` clause), distinguishable from
the soft empty/corrupt outcome because an existing file always yields a
normal `.ok` result. -/
theorem loader_soft_and_hard :
    (∀ (content : String) (parsed : Except Unit BenchResults),
      String.mk (pyStripChars content.data) = "" →
      load_benchmark_results (.present content parsed) = .ok ⟨[]⟩)
    ∧ (∀ content : String,
      load_benchmark_results (.present content (.error ())) = .ok ⟨[]⟩)
    ∧ load_benchmark_results .absent = .error .fileNotFound
    ∧ (∀ (content : String) (parsed : Except Unit BenchResults),
      ∃ r, load_benchmark_results (.present content parsed) = .ok r) := by
  refine ⟨?_, ?_, rfl, ?_⟩
  · intro content parsed hempty
    show (if String.mk (pyStripChars content.data) = "" then
        (Except.ok ⟨[]⟩ : Except LoadError BenchResults)
      else match parsed with
        | .error _ => .ok ⟨[]⟩
        | .ok r => .ok r) = .ok ⟨[]⟩
    rw [if_pos hempty]
  · intro content
    show (if String.mk (pyStripChars content.data) = "" then
        (Except.ok ⟨[]⟩ : Except LoadError BenchResults)
      else .ok ⟨[]⟩) = .ok ⟨[]⟩
    exact ite_self _
  · intro content parsed
    cases parsed with
    | error e =>
      refine ⟨⟨[]⟩, ?_⟩
      show (if String.mk (pyStripChars content.data) = "" then
          (Except.ok ⟨[]⟩ : Except LoadError BenchResults)
        else .ok ⟨[]⟩) = .ok ⟨[]⟩
      exact ite_self _
    | ok r =>
      by_cases hempty : String.mk (pyStripChars content.data) = ""
      · refine ⟨⟨[]⟩, ?_⟩
        show (if String.mk (pyStripChars content.data) = "" then
            (Except.ok ⟨[]⟩ : Except LoadError BenchResults)
          else .ok r) = .ok ⟨[]⟩
        rw [if_pos hempty]
      · refine ⟨r, ?_⟩
        show (if String.mk (pyStripChars content.data) = "" then
            (Except.ok ⟨[]⟩ : Except LoadError BenchResults)
          else .ok r) = .ok r
        rw [if_neg hempty]

/-- Witness for C3: `loader_soft_and_hard` at concrete file states: an
empty-content file, a corrupt (unparseable) file, and an arbitrary existing
file. -/
theorem loader_soft_and_hard_witness :
    load_benchmark_results (.present "  " (.ok ⟨[⟨"X", some 1, none, none⟩]⟩)) =
      .ok ⟨[]⟩
    ∧ load_benchmark_results (.present "not json" (.error ())) = .ok ⟨[]⟩
    ∧ ∃ r, load_benchmark_results
        (.present "{}" (.ok ⟨[⟨"X", some 1, none, none⟩]⟩)) = .ok r :=
  ⟨loader_soft_and_hard.1 "  " _ (by decide),
   loader_soft_and_hard.2.1 "not json",
   loader_soft_and_hard.2.2.2 "{}" _⟩

theorem extract_step_mean {acc : List (String × Rat)} {r : BenchRecord}
    {t : Rat} (hm : pyContains r.name "_mean" = true)
    (hc : r.cpu_time = some t) :
    extract_step acc r = some (dictInsert acc (pyReplaceMean r.name) t) := by
  simp [extract_step, hm, hc]

theorem extract_step_mean_none {acc : List (String × Rat)} {r : BenchRecord}
    (hm : pyContains r.name "_mean" = true) (hc : r.cpu_time = none) :
    extract_step acc r = none := by
  simp [extract_step, hm, hc]

theorem extract_step_suffix {acc : List (String × Rat)} {r : BenchRecord}
    (hm : pyContains r.name "_mean" = false)
    (hsuf : (pyContains r.name "_median" || pyContains r.name "_stddev"
      || pyContains r.name "_cv") = true) :
    extract_step acc r = some acc := by
  simp [extract_step, hm, hsuf]

theorem extract_step_raw {acc : List (String × Rat)} {r : BenchRecord}
    {t : Rat} (hm : pyContains r.name "_mean" = false)
    (hmed : pyContains r.name "_median" = false)
    (hstd : pyContains r.name "_stddev" = false)
    (hcv : pyContains r.name "_cv" = false)
    (hagg : pyContains (r.run_type.getD "") "aggregate" = false)
    (hc : r.cpu_time = some t) :
    extract_step acc r = some (dictInsert acc r.name t) := by
  simp [extract_step, hm, hmed, hstd, hcv, hagg, hc]

theorem extract_step_raw_none {acc : List (String × Rat)} {r : BenchRecord}
    (hm : pyContains r.name "_mean" = false)
    (hmed : pyContains r.name "_median" = false)
    (hstd : pyContains r.name "_stddev" = false)
    (hcv : pyContains r.name "_cv" = false)
    (hagg : pyContains (r.run_type.getD "") "aggregate" = false)
    (hc : r.cpu_time = none) :
    extract_step acc r = none := by
  simp [extract_step, hm, hmed, hstd, hcv, hagg, hc]

theorem extract_step_agg {acc : List (String × Rat)} {r : BenchRecord}
    (hm : pyContains r.name "_mean" = false)
    (hsuf : (pyContains r.name "_median" || pyContains r.name "_stddev"
      || pyContains r.name "_cv") = false)
    (hagg : pyContains (r.run_type.getD "") "aggregate" = true) :
    extract_step acc r = some acc := by
  simp [extract_step, hm, hsuf, hagg]

theorem extract_go_cons_none {r : BenchRecord} {rest : List BenchRecord}
    {acc : List (String × Rat)} (hs : extract_step acc r = none) :
    extract_go (r :: rest) acc = none := by
  simp [extract_go, hs]

theorem extract_go_cons_some {r : BenchRecord} {rest : List BenchRecord}
    {acc acc2 : List (String × Rat)} (hs : extract_step acc r = some acc2) :
    extract_go (r :: rest) acc = extract_go rest acc2 := by
  simp [extract_go, hs]

theorem dictLookup_insert_self (d : List (String × Rat)) (k : String) (v : Rat) :
    dictLookup (dictInsert d k v) k = some v := by
  induction d with
  | nil => simp [dictInsert, dictLookup]
  | cons p rest ih =>
    by_cases hp : p.1 = k
    · simp [dictInsert, hp, dictLookup]
    · simp [dictInsert, hp, dictLookup, ih]

theorem dictLookup_insert_ne (d : List (String × Rat)) (k : String) (v : Rat)
    (q : String) (h : q ≠ k) :
    dictLookup (dictInsert d k v) q = dictLookup d q := by
  have hkq : ¬k = q := fun he => h he.symm
  induction d with
  | nil =>
    show dictLookup [(k, v)] q = dictLookup [] q
    simp [dictLookup, hkq]
  | cons p rest ih =>
    by_cases hp : p.1 = k
    · have hinsert : dictInsert (p :: rest) k v = (k, v) :: rest := by
        simp [dictInsert, hp]
      have hpq : ¬p.1 = q := by rw [hp]; exact hkq
      rw [hinsert]
      show (if k = q then some v else dictLookup rest q) = dictLookup (p :: rest) q
      rw [if_neg hkq]
      simp [dictLookup, hpq]
    · have hinsert : dictInsert (p :: rest) k v = p :: dictInsert rest k v := by
        simp [dictInsert, hp]
      rw [hinsert]
      by_cases hpq : p.1 = q
      · simp [dictLookup, hpq]
      · simp [dictLookup, hpq, ih]

theorem dictLookup_insert_isSome (d : List (String × Rat)) (k : String)
    (v : Rat) (q : String) (h : (dictLookup d q).isSome) :
    (dictLookup (dictInsert d k v) q).isSome := by
  by_cases he : q = k
  · subst he
    rw [dictLookup_insert_self]
    rfl
  · rw [dictLookup_insert_ne d k v q he]
    exact h

theorem bool_not_true {b : Bool} (h : ¬b = true) : b = false := by
  cases b
  · rfl
  · exact absurd rfl h

theorem extract_step_preserves {acc acc' : List (String × Rat)}
    {r : BenchRecord} {k : String} (h : extract_step acc r = some acc')
    (hk : (dictLookup acc k).isSome) : (dictLookup acc' k).isSome := by
  by_cases hm : pyContains r.name "_mean" = true
  · cases hc : r.cpu_time with
    | none => rw [extract_step_mean_none hm hc] at h; cases h
    | some t =>
      rw [extract_step_mean hm hc] at h
      cases Option.some.inj h
      exact dictLookup_insert_isSome _ _ _ _ hk
  · have hm' := bool_not_true hm
    by_cases hsuf : (pyContains r.name "_median" || pyContains r.name "_stddev"
        || pyContains r.name "_cv") = true
    · rw [extract_step_suffix hm' hsuf] at h
      cases Option.some.inj h
      exact hk
    · have hsuf' := bool_not_true hsuf
      have hmed : pyContains r.name "_median" = false := by
        rcases Bool.or_eq_false_iff.mp hsuf' with ⟨h1, _⟩
        exact (Bool.or_eq_false_iff.mp h1).1
      have hstd : pyContains r.name "_stddev" = false := by
        rcases Bool.or_eq_false_iff.mp hsuf' with ⟨h1, _⟩
        exact (Bool.or_eq_false_iff.mp h1).2
      have hcv : pyContains r.name "_cv" = false :=
        (Bool.or_eq_false_iff.mp hsuf').2
      by_cases hagg : pyContains (r.run_type.getD "") "aggregate" = true
      · rw [extract_step_agg hm' hsuf' hagg] at h
        cases Option.some.inj h
        exact hk
      · have hagg' := bool_not_true hagg
        cases hc : r.cpu_time with
        | none => rw [extract_step_raw_none hm' hmed hstd hcv hagg' hc] at h; cases h
        | some t =>
          rw [extract_step_raw hm' hmed hstd hcv hagg' hc] at h
          cases Option.some.inj h
          exact dictLookup_insert_isSome _ _ _ _ hk

theorem extract_go_preserves :
    ∀ {rs : List BenchRecord} {acc res : List (String × Rat)} {k : String},
      extract_go rs acc = some res → (dictLookup acc k).isSome →
      (dictLookup res k).isSome := by
  intro rs
  induction rs with
  | nil =>
    intro acc res k h hk
    cases Option.some.inj h
    exact hk
  | cons r rest ih =>
    intro acc res k h hk
    cases hs : extract_step acc r with
    | none => rw [extract_go_cons_none hs] at h; cases h
    | some acc2 =>
      rw [extract_go_cons_some hs] at h
      exact ih h (extract_step_preserves hs hk)

theorem extract_go_mean_mem :
    ∀ {rs : List BenchRecord} {acc res : List (String × Rat)} {r : BenchRecord},
      extract_go rs acc = some res → r ∈ rs →
      pyContains r.name "_mean" = true →
      (dictLookup res (pyReplaceMean r.name)).isSome := by
  intro rs
  induction rs with
  | nil =>
    intro acc res r _ hr
    cases hr
  | cons r2 rest ih =>
    intro acc res r h hr hm
    rcases List.mem_cons.mp hr with rfl | hmem
    · cases hc : r.cpu_time with
      | none => rw [extract_go_cons_none (extract_step_mean_none hm hc)] at h; cases h
      | some t =>
        rw [extract_go_cons_some (extract_step_mean hm hc)] at h
        exact extract_go_preserves h
          (by rw [dictLookup_insert_self]; rfl)
    · cases hs : extract_step acc r2 with
      | none => rw [extract_go_cons_none hs] at h; cases h
      | some acc2 =>
        rw [extract_go_cons_some hs] at h
        exact ih h hmem hm

/-- Does one loop iteration of `extract_timings` write the `timings` key
`k`?  Either a `_mean` record whose suffix-stripped name is `k`, or a raw
(no summary suffix, non-aggregate `run_type`) record named `k`. -/
def writesKey (r : BenchRecord) (k : String) : Bool :=
  (pyContains r.name "_mean" && (pyReplaceMean r.name == k))
  || (!pyContains r.name "_mean" && !pyContains r.name "_median"
      && !pyContains r.name "_stddev" && !pyContains r.name "_cv"
      && !pyContains (r.run_type.getD "") "aggregate" && (r.name == k))

theorem extract_step_not_writes {acc acc' : List (String × Rat)}
    {r : BenchRecord} {k : String} (hw : writesKey r k = false)
    (h : extract_step acc r = some acc') :
    dictLookup acc' k = dictLookup acc k := by
  by_cases hm : pyContains r.name "_mean" = true
  · have hne : k ≠ pyReplaceMean r.name := by
      simp [writesKey, hm] at hw
      exact fun he => hw he.symm
    cases hc : r.cpu_time with
    | none => rw [extract_step_mean_none hm hc] at h; cases h
    | some t =>
      rw [extract_step_mean hm hc] at h
      cases Option.some.inj h
      exact dictLookup_insert_ne _ _ _ _ hne
  · have hm' := bool_not_true hm
    by_cases hsuf : (pyContains r.name "_median" || pyContains r.name "_stddev"
        || pyContains r.name "_cv") = true
    · rw [extract_step_suffix hm' hsuf] at h
      cases Option.some.inj h
      rfl
    · have hsuf' := bool_not_true hsuf
      have hmed : pyContains r.name "_median" = false := by
        rcases Bool.or_eq_false_iff.mp hsuf' with ⟨h1, _⟩
        exact (Bool.or_eq_false_iff.mp h1).1
      have hstd : pyContains r.name "_stddev" = false := by
        rcases Bool.or_eq_false_iff.mp hsuf' with ⟨h1, _⟩
        exact (Bool.or_eq_false_iff.mp h1).2
      have hcv : pyContains r.name "_cv" = false :=
        (Bool.or_eq_false_iff.mp hsuf').2
      by_cases hagg : pyContains (r.run_type.getD "") "aggregate" = true
      · rw [extract_step_agg hm' hsuf' hagg] at h
        cases Option.some.inj h
        rfl
      · have hagg' := bool_not_true hagg
        have hne : k ≠ r.name := by
          simp [writesKey, hm', hmed, hstd, hcv, hagg'] at hw
          exact fun he => hw he.symm
        cases hc : r.cpu_time with
        | none =>
          rw [extract_step_raw_none hm' hmed hstd hcv hagg' hc] at h
          cases h
        | some t =>
          rw [extract_step_raw hm' hmed hstd hcv hagg' hc] at h
          cases Option.some.inj h
          exact dictLookup_insert_ne _ _ _ _ hne

theorem extract_go_not_writes :
    ∀ {rs : List BenchRecord} {acc res : List (String × Rat)} {k : String},
      (∀ r2 ∈ rs, writesKey r2 k = false) → extract_go rs acc = some res →
      dictLookup res k = dictLookup acc k := by
  intro rs
  induction rs with
  | nil =>
    intro acc res k _ h
    cases Option.some.inj h
    rfl
  | cons r rest ih =>
    intro acc res k hall h
    cases hs : extract_step acc r with
    | none => rw [extract_go_cons_none hs] at h; cases h
    | some acc2 =>
      rw [extract_go_cons_some hs] at h
      have h1 := ih (fun r2 hr2 => hall r2 (List.mem_cons_of_mem _ hr2)) h
      rw [h1]
      exact extract_step_not_writes (hall r (List.mem_cons_self _ _)) hs

theorem extract_go_append :
    ∀ (l1 l2 : List BenchRecord) (acc : List (String × Rat)),
      extract_go (l1 ++ l2) acc =
        match extract_go l1 acc with
        | none => none
        | some a => extract_go l2 a := by
  intro l1
  induction l1 with
  | nil => intro l2 acc; rfl
  | cons r rest ih =>
    intro l2 acc
    cases hs : extract_step acc r with
    | none =>
      rw [List.cons_append, extract_go_cons_none hs, extract_go_cons_none hs]
    | some acc2 =>
      rw [List.cons_append, extract_go_cons_some hs, extract_go_cons_some hs,
        ih]

/-- Claim C2 (amended): `extract_timings` keys every `_mean` record under
its suffix-stripped name; records whose names carry a `_median`, `_stddev`
or `_cv` marker (and no `_mean`) contribute nothing; and a raw
(non-aggregate `run_type`) record's time is retained exactly when no
aggregate/summary form for the same identity appears *later* in the record
list — insertion into the timings dict is last-writer-wins, so an aggregate
appearing earlier in the list is overwritten by the raw record, not the
other way round. -/
theorem extract_aggregation_rules :
    (∀ (results : BenchResults) (res : List (String × Rat)) (r : BenchRecord),
      extract_timings results = some res → r ∈ results.benchmarks →
      pyContains r.name "_mean" = true →
      (dictLookup res (pyReplaceMean r.name)).isSome)
    ∧ (∀ (acc : List (String × Rat)) (r : BenchRecord),
      pyContains r.name "_mean" = false →
      (pyContains r.name "_median" || pyContains r.name "_stddev"
        || pyContains r.name "_cv") = true →
      extract_step acc r = some acc)
    ∧ (∀ (pre post : List BenchRecord) (r : BenchRecord)
        (res : List (String × Rat)),
      extract_timings ⟨pre ++ r :: post⟩ = some res →
      pyContains r.name "_mean" = false →
      pyContains r.name "_median" = false →
      pyContains r.name "_stddev" = false →
      pyContains r.name "_cv" = false →
      pyContains (r.run_type.getD "") "aggregate" = false →
      (∀ r2 ∈ post, writesKey r2 r.name = false) →
      dictLookup res r.name = r.cpu_time) := by
  refine ⟨?_, ?_, ?_⟩
  · intro results res r h hr hm
    exact extract_go_mean_mem h hr hm
  · intro acc r hm hsuf
    exact extract_step_suffix hm hsuf
  · intro pre post r res h hm hmed hstd hcv hagg hall
    have h' : extract_go (pre ++ r :: post) [] = some res := h
    rw [extract_go_append] at h'
    cases h1 : extract_go pre [] with
    | none => simp [h1] at h'
    | some acc1 =>
      rw [h1] at h'
      have h2 : extract_go (r :: post) acc1 = some res := h'
      cases hc : r.cpu_time with
      | none =>
        rw [extract_go_cons_none
          (extract_step_raw_none hm hmed hstd hcv hagg hc)] at h2
        cases h2
      | some t =>
        rw [extract_go_cons_some
          (extract_step_raw hm hmed hstd hcv hagg hc)] at h2
        rw [extract_go_not_writes hall h2, dictLookup_insert_self]

/-- Counterexample for C2 as frozen: a raw record for identity `X` standing
after the aggregate `X_mean` record overwrites it (dict insertion is
last-writer-wins), so its raw time `7` is retained even though an
aggregate/summary form for the same identity exists, contradicting
"retained only when no aggregate/summary form exists". -/
theorem extract_raw_overwrites_mean :
    extract_timings ⟨[⟨"X_mean", some 5, none, some "aggregate"⟩,
      ⟨"X", some 7, none, none⟩]⟩ = some [("X", 7)] := by decide

/-- Witness for C2: `extract_aggregation_rules` at concrete records — a
lone `_mean` record, a `_median` record over an arbitrary accumulator, and
a lone raw record. -/
theorem extract_aggregation_rules_witness :
    (dictLookup [("Y", (3 : Rat))] (pyReplaceMean "Y_mean")).isSome
    ∧ extract_step [("A", 1)] ⟨"Z_median", some 2, none, none⟩ = some [("A", 1)]
    ∧ dictLookup [("X", (7 : Rat))] "X" = some 7 := by
  refine ⟨?_, ?_, ?_⟩
  · exact extract_aggregation_rules.1
      ⟨[⟨"Y_mean", some 3, none, some "aggregate"⟩]⟩ [("Y", 3)]
      ⟨"Y_mean", some 3, none, some "aggregate"⟩ (by decide)
      (by decide) (by decide)
  · exact extract_aggregation_rules.2.1 [("A", 1)]
      ⟨"Z_median", some 2, none, none⟩ (by decide) (by decide)
  · exact extract_aggregation_rules.2.2 [] [] ⟨"X", some 7, none, none⟩
      [("X", 7)] (by decide) (by decide) (by decide) (by decide) (by decide)
      (by decide) (fun r2 hr2 => absurd hr2 (List.not_mem_nil r2))

/-- Claim C7 (amended): the comparator's `extract_timings` reads the
`cpu_time` field, not `real_time`: a raw record with a `cpu_time` value is
paired with that value under its own name, and the `real_time` field is
ignored entirely (changing it cannot change the step's outcome).  A record
carrying only `name` and `real_time` makes the extractor fail with a
`KeyError`. -/
theorem extract_reads_cpu_time :
    (∀ (acc : List (String × Rat)) (r : BenchRecord) (t : Rat),
      r.cpu_time = some t →
      pyContains r.name "_mean" = false →
      pyContains r.name "_median" = false →
      pyContains r.name "_stddev" = false →
      pyContains r.name "_cv" = false →
      pyContains (r.run_type.getD "") "aggregate" = false →
      extract_step acc r = some (dictInsert acc r.name t))
    ∧ (∀ (acc : List (String × Rat)) (r : BenchRecord) (v : Option Rat),
      extract_step acc { r with real_time := v } = extract_step acc r) := by
  constructor
  · intro acc r t hc hm hmed hstd hcv hagg
    exact extract_step_raw hm hmed hstd hcv hagg hc
  · intro acc r v
    cases r
    rfl

/-- Counterexample for C7 as frozen: a record providing a `name` and a
numeric `real_time` but no `cpu_time` makes the comparator's extractor fail
(uncaught `KeyError` on `bench['cpu_time']`), and when both fields are
present the retained value is `cpu_time` (3), not `real_time` (5). -/
theorem extract_missing_cpu_time_fails :
    extract_timings ⟨[⟨"X", none, some 5, none⟩]⟩ = none
    ∧ extract_timings ⟨[⟨"X", some 3, some 5, none⟩]⟩ = some [("X", 3)] :=
  ⟨by decide, by decide⟩

/-- Witness for C7: `extract_reads_cpu_time` at a concrete raw record,
including invariance under a change of its `real_time` field. -/
theorem extract_reads_cpu_time_witness :
    extract_step [] ⟨"W", some 3, some 5, none⟩ = some (dictInsert [] "W" 3)
    ∧ extract_step []
        { (⟨"W", some 3, some 5, none⟩ : BenchRecord) with real_time := some 9 } =
      extract_step [] ⟨"W", some 3, some 5, none⟩ :=
  ⟨extract_reads_cpu_time.1 [] ⟨"W", some 3, some 5, none⟩ 3 (by decide)
      (by decide) (by decide) (by decide) (by decide) (by decide),
   extract_reads_cpu_time.2 [] ⟨"W", some 3, some 5, none⟩ (some 9)⟩
